import Mathlib

/-!
Verification development for the schemapi / altair_parser code generator.

The core under study is `altair_parser/trait_extractors.py`: an ordered chain
of extractor strategies that maps a JSON-Schema node to the source text of a
validated-property declaration.  Pure Python functions are embedded as Lean
functions over an inductive JSON value type; Python exceptions become an
`Except` error type; the recursive dispatch through schema children is given
a fuel parameter (unbounded recursion through cyclic references corresponds
to running out of fuel).

Helpers that live in files of the repository not available here
(`utils.construct_function_call`, the `JSONSchema` node class, the schemapi
runtime) are modelled from the specification; each such definition carries a
doc comment saying so.
-/

/-- JSON values, the in-memory schema tree. Numbers are modelled as integers:
every numeric literal the claims exercise is integral, and the extractors
only ever forward numbers verbatim into generated text. -/
inductive JValue where
  | null : JValue
  | bool (b : Bool) : JValue
  | num (n : Int) : JValue
  | str (s : String) : JValue
  | arr (l : List JValue) : JValue
  | obj (l : List (String × JValue)) : JValue

/-- First-match association-list lookup, the semantics of a Python dict read
(documents are assumed to have unique keys, as parsed JSON dicts do). -/
def alookup {α : Type} : List (String × α) → String → Option α
  | [], _ => none
  | (k, v) :: rest, key => if k = key then some v else alookup rest key

/-- Python `schema[key]` on a dict node; non-dict nodes have no keys. -/
def JValue.getKey : JValue → String → Option JValue
  | .obj l, k => alookup l k
  | _, _ => none

/-- Python `key in schema`. -/
def JValue.hasKey (j : JValue) (k : String) : Bool :=
  (j.getKey k).isSome

def JValue.asString : JValue → Option String
  | .str s => some s
  | _ => none

/-- Rendering of a JSON value as Python-repr source text.
Modelled from the spec: `utils.py` (the code-construction helpers) is not
under src/; the spec describes "safely rendering a function/constructor call
... given arbitrary argument values (strings, numbers, lists, nested
expressions)". -/
def renderJValue : JValue → String
  | .null => "None"
  | .bool b => if b then "True" else "False"
  | .num n => toString n
  | .str s => "\x27" ++ s ++ "\x27"
  | .arr l => "[" ++ String.intercalate ", " (renderJValueList l) ++ "]"
  | .obj l => "\x7b" ++ String.intercalate ", " (renderJValuePairs l) ++ "\x7d"
where
  renderJValueList : List JValue → List String
    | [] => []
    | x :: rest => renderJValue x :: renderJValueList rest
  renderJValuePairs : List (String × JValue) → List String
    | [] => []
    | (k, v) :: rest =>
        ("\x27" ++ k ++ "\x27: " ++ renderJValue v) :: renderJValuePairs rest

/-- An argument to a generated constructor call: either a `Variable`
(source text spliced verbatim), a Python boolean literal, or a JSON value
taken from the schema and rendered as a literal. -/
inductive Arg where
  | var (s : String) : Arg
  | bool (b : Bool) : Arg
  | json (j : JValue) : Arg

def renderArg : Arg → String
  | .var s => s
  | .bool b => if b then "True" else "False"
  | .json j => renderJValue j

/-- Keyword arguments of a generated call, in Python dict insertion order. -/
abbrev Kwargs := List (String × Arg)

/-- Python `dict.update`: keys already present keep their position and take
the new value; new keys are appended in the update's order. -/
def kwUpdate (kw upd : Kwargs) : Kwargs :=
  kw.map (fun kv =>
    match alookup upd kv.1 with
    | some v => (kv.1, v)
    | none => kv)
  ++ upd.filter (fun kv => !(kw.any (fun kv2 => kv2.1 == kv.1)))

/-- Python `kwargs[k] = v` on a dict. -/
def kwSet (kw : Kwargs) (k : String) (v : Arg) : Kwargs :=
  kwUpdate kw [(k, v)]

/-- Rendering of `name(arg1, ..., key1=val1, ...)`.
Modelled from the spec: `utils.construct_function_call` is not under src/;
the spec describes rendering a constructor call with positional and
keyword-style arguments into target-language source text. -/
def construct_function_call (name : String) (args : List Arg) (kwargs : Kwargs) : String :=
  name ++ "(" ++
    String.intercalate ", "
      (args.map renderArg ++ kwargs.map (fun kv => kv.1 ++ "=" ++ renderArg kv.2)) ++
    ")"

/-- Errors raised during trait-code extraction.  `keyError` models a Python
`KeyError` on a missing schema key; `notImplemented` models
`NotImplementedError` (the spec calls these `UnsupportedSchemaConstructError`
class errors); `outOfFuel` models non-terminating recursion through
references (the spec's `CyclicReferenceError` situation). -/
inductive Err where
  | keyError (k : String) : Err
  | notImplemented (msg : String) : Err
  | unresolvedRef (r : String) : Err
  | unsupportedRef (r : String) : Err
  | noMatchingExtractor : Err
  | outOfFuel : Err
deriving DecidableEq, Repr

/-- The `type` of a schema node: a single type name, a list (union of simple
types), or undefined. -/
inductive TypeCode where
  | str (s : String) : TypeCode
  | list (l : List JValue) : TypeCode
  | undef : TypeCode

/-- Type of a schema node.
Modelled from the spec (§4.1, the `JSONSchema` node class is not under
src/): an explicit `type` keyword is used verbatim (string or list); absent
that, `enum` gives an enum-like node with no simple type, `properties` or
`additionalProperties` infers "object", `items` infers "array", and
otherwise the type is undefined. -/
def nodeType (s : JValue) : TypeCode :=
  match s.getKey "type" with
  | some (.str t) => .str t
  | some (.arr l) => .list l
  | some _ => .undef
  | none =>
    if s.hasKey "enum" then .undef
    else if s.hasKey "properties" || s.hasKey "additionalProperties" then .str "object"
    else if s.hasKey "items" then .str "array"
    else .undef

def simple_types : List String :=
  ["boolean", "null", "number", "integer", "string"]

def simple_classes : List (String × String) :=
  [("boolean", "jst.JSONBoolean"),
   ("null", "jst.JSONNull"),
   ("number", "jst.JSONNumber"),
   ("integer", "jst.JSONInteger"),
   ("string", "jst.JSONString")]

/-- `SimpleTraitCode.validation_keys`: constraint keywords forwarded for a
given simple type; defined only for "number" and "integer". -/
def validation_keys (t : String) : List String :=
  if t = "number" || t = "integer" then
    ["minimum", "exclusiveMinimum", "maximum", "exclusiveMaximum", "multipleOf"]
  else []

/-- `SimpleTraitCode.trait_code` with an explicit string typecode (the form
`CompoundTraitCode` invokes): look up the runtime class for the typecode,
pull the validation keywords present on the schema into the kwargs, and
render the call. -/
def SimpleTraitCode.trait_code (schema : JValue) (typecode : String) (kwargs : Kwargs) :
    Except Err String :=
  match alookup simple_classes typecode with
  | none => .error (.keyError typecode)
  | some cls =>
    let upd := (validation_keys typecode).filterMap
      (fun key => (schema.getKey key).map (fun v => (key, Arg.json v)))
    .ok (construct_function_call cls [] (kwUpdate kwargs upd))

/-- Python `typ == "null"` for an entry of a type list (entries that are not
strings compare unequal to the string "null"). -/
def isNullName : JValue → Bool
  | .str s => s == "null"
  | _ => false

/-- `CompoundTraitCode.trait_code`: set `allow_none` if "null" occurs in the
type list, drop "null", degrade to `SimpleTraitCode` if one type remains,
otherwise render a `jst.JSONUnion` whose branches do not receive the
`allow_none` / `allow_undefined` flags. -/
def CompoundTraitCode.trait_code (schema : JValue) (typecode : List JValue) (kwargs : Kwargs) :
    Except Err String :=
  let kwargs := if typecode.any isNullName then
      kwSet kwargs "allow_none" (Arg.bool true)
    else kwargs
  let tc := typecode.filter (fun t => !(isNullName t))
  match tc with
  | [t] =>
    match t with
    | .str s => SimpleTraitCode.trait_code schema s kwargs
    | _ => .error (.keyError (renderJValue t))
  | _ =>
    let item_kwargs := kwargs.filter
      (fun kv => !(kv.1 == "allow_none" || kv.1 == "allow_undefined"))
    match tc.mapM (fun t =>
        match t with
        | JValue.str s => SimpleTraitCode.trait_code schema s item_kwargs
        | _ => Except.error (Err.keyError (renderJValue t))) with
    | .error e => .error e
    | .ok branches =>
      .ok (construct_function_call "jst.JSONUnion"
            [Arg.var ("[" ++ String.intercalate ", " branches ++ "]")] kwargs)

/-- Title/description metadata of a schema node. -/
structure Metadata where
  title : Option String
  description : Option String

/-- A schema node: the wrapped subtree, a pointer to the document root, and
the node's metadata.
Modelled from the spec (§2, §3): the `JSONSchema` node class itself is not
under src/; the spec describes an immutable-view wrapper around a subtree
with a pointer to the document root. -/
structure SchemaNode where
  schema : JValue
  root : JValue
  metadata : Metadata

def metadataOf (j : JValue) : Metadata :=
  ⟨(j.getKey "title").bind JValue.asString,
   (j.getKey "description").bind JValue.asString⟩

/-- `make_child`: a fresh node scoped to a nested subtree, inheriting the
document root.  Modelled from the spec (§4.1). -/
def make_child (n : SchemaNode) (sub : JValue) : SchemaNode :=
  ⟨sub, n.root, metadataOf sub⟩

def mkRootNode (doc : JValue) : SchemaNode :=
  ⟨doc, doc, metadataOf doc⟩

def resolve_path : JValue → List String → Option JValue
  | j, [] => some j
  | j, seg :: rest => (j.getKey seg).bind (fun x => resolve_path x rest)

/-- `get_reference`: resolve a draft-04 fragment reference against the
document root, yielding the target subtree and the class name derived from
the last path segment.
Modelled from the spec (§4.1): the resolver is not under src/; the spec
says it parses the path segments of a string beginning with `#/`, walks them
from the document root, fails with an unresolved-reference error on a
missing segment and an unsupported-reference error on a non-fragment ref. -/
def splitSlash : List Char → List Char → List String
  | [], acc => [String.mk acc.reverse]
  | c :: rest, acc =>
    if c = '/' then String.mk acc.reverse :: splitSlash rest []
    else splitSlash rest (c :: acc)

def get_reference (root : JValue) (ref : String) : Except Err (JValue × String) :=
  match ref.data with
  | '#' :: rest =>
    let segs := (splitSlash rest []).filter (fun s => !(s == ""))
    match resolve_path root segs with
    | some tgt => .ok (tgt, segs.getLastD "Root")
    | none => .error (.unresolvedRef ref)
  | _ => .error (.unsupportedRef ref)

/-- `is_object`: the node's type is "object" (explicit, or inferred from the
presence of `properties` / `additionalProperties`).
Modelled from the spec (§3): the node class is not under src/. -/
def is_object (j : JValue) : Bool :=
  match nodeType j with
  | .str s => s == "object"
  | _ => false

def RefTraitCode.check (n : SchemaNode) : Bool :=
  n.schema.hasKey "$ref"

def EnumTraitCode.check (n : SchemaNode) : Bool :=
  n.schema.hasKey "enum"

def SimpleTraitCode.check (n : SchemaNode) : Bool :=
  match nodeType n.schema with
  | .str s => simple_types.contains s
  | _ => false

def CompoundTraitCode.check (n : SchemaNode) : Bool :=
  match nodeType n.schema with
  | .list l => l.all (fun t =>
      match t with
      | JValue.str s => simple_types.contains s
      | _ => false)
  | _ => false

def ArrayTraitCode.check (n : SchemaNode) : Bool :=
  match nodeType n.schema with
  | .str s => s == "array"
  | _ => false

def AnyOfTraitCode.check (n : SchemaNode) : Bool :=
  n.schema.hasKey "anyOf"

def OneOfTraitCode.check (n : SchemaNode) : Bool :=
  n.schema.hasKey "oneOf"

def AllOfTraitCode.check (n : SchemaNode) : Bool :=
  n.schema.hasKey "allOf"

def NotTraitCode.check (n : SchemaNode) : Bool :=
  n.schema.hasKey "not"

def ObjectTraitCode.check (n : SchemaNode) : Bool :=
  match nodeType n.schema with
  | .str s => s == "object"
  | _ => false

/-- `SimpleTraitCode` as invoked by the chain: the typecode defaults to the
node's own type. -/
def SimpleTraitCode.extract (n : SchemaNode) (kwargs : Kwargs) : Except Err String :=
  match nodeType n.schema with
  | .str s => SimpleTraitCode.trait_code n.schema s kwargs
  | _ => .error (.keyError "type")

/-- `CompoundTraitCode` as invoked by the chain. -/
def CompoundTraitCode.extract (n : SchemaNode) (kwargs : Kwargs) : Except Err String :=
  match nodeType n.schema with
  | .list l => CompoundTraitCode.trait_code n.schema l kwargs
  | _ => .error (.keyError "type")

/-- `RefTraitCode.trait_code`: resolve the reference; an object-class target
yields a `jst.JSONInstance` call on the target's class name, any other
target is spliced in transparently via its own trait code (the recursive
call `rec`), on a copy carrying the referencing node's metadata. -/
def RefTraitCode.trait_code (rec : SchemaNode → Except Err String)
    (n : SchemaNode) (kwargs : Kwargs) : Except Err String :=
  match n.schema.getKey "$ref" with
  | some (JValue.str r) =>
    match get_reference n.root r with
    | .error e => .error e
    | .ok (tgt, classname) =>
      if is_object tgt then
        .ok (construct_function_call "jst.JSONInstance" [Arg.var classname] kwargs)
      else
        rec ⟨tgt, n.root, n.metadata⟩
  | some _ => .error (.unsupportedRef "$ref")
  | none => .error (.keyError "$ref")

def EnumTraitCode.trait_code (n : SchemaNode) (kwargs : Kwargs) : Except Err String :=
  match n.schema.getKey "enum" with
  | some e => .ok (construct_function_call "jst.JSONEnum" [Arg.json e] kwargs)
  | none => .error (.keyError "enum")

/-- Python `isinstance(items, list)`. -/
def JValue.isArr : JValue → Bool
  | .arr _ => true
  | _ => false

/-- The kwargs-update block of `ArrayTraitCode.trait_code`: forward
`minItems`, `maxItems` and `uniqueItems` as the `minlen`, `maxlen` and
`uniqueItems` keyword arguments, each exactly when present on the schema. -/
def array_kwargs (schema : JValue) (kwargs : Kwargs) : Kwargs :=
  let kwargs := match schema.getKey "minItems" with
    | some v => kwSet kwargs "minlen" (Arg.json v)
    | none => kwargs
  let kwargs := match schema.getKey "maxItems" with
    | some v => kwSet kwargs "maxlen" (Arg.json v)
    | none => kwargs
  match schema.getKey "uniqueItems" with
  | some v => kwSet kwargs "uniqueItems" (Arg.json v)
  | none => kwargs

/-- `ArrayTraitCode.trait_code`: read `items` (a missing key is a hard
error), forward `minItems` / `maxItems` / `uniqueItems` when present, refuse
list-form `items` (tuple typing), and otherwise recurse into the child node
at `items`. -/
def ArrayTraitCode.trait_code (rec : SchemaNode → Except Err String)
    (n : SchemaNode) (kwargs : Kwargs) : Except Err String :=
  match n.schema.getKey "items" with
  | none => .error (.keyError "items")
  | some items =>
    let kwargs := array_kwargs n.schema kwargs
    if items.isArr then
      .error (.notImplemented "\x27items\x27 keyword as list")
    else
      match rec (make_child n items) with
      | .ok itemtype =>
        .ok (construct_function_call "jst.JSONArray" [Arg.var itemtype] kwargs)
      | .error e => .error e

/-- Trait codes of the children made at each entry of a composition
keyword's array. -/
def composite_children (rec : SchemaNode → Except Err String)
    (n : SchemaNode) : List JValue → Except Err (List String)
  | [] => .ok []
  | s :: rest =>
    match rec (make_child n s) with
    | .error e => .error e
    | .ok c =>
      match composite_children rec n rest with
      | .ok cs => .ok (c :: cs)
      | .error e => .error e

def composition_call (name : String) (cs : List String) (kwargs : Kwargs) : String :=
  construct_function_call name
    [Arg.var ("[" ++ String.intercalate ", " cs ++ "]")] kwargs

def AnyOfTraitCode.trait_code (rec : SchemaNode → Except Err String)
    (n : SchemaNode) (kwargs : Kwargs) : Except Err String :=
  match n.schema.getKey "anyOf" with
  | some (.arr subs) =>
    match composite_children rec n subs with
    | .ok cs => .ok (composition_call "jst.JSONAnyOf" cs kwargs)
    | .error e => .error e
  | _ => .error (.keyError "anyOf")

def OneOfTraitCode.trait_code (rec : SchemaNode → Except Err String)
    (n : SchemaNode) (kwargs : Kwargs) : Except Err String :=
  match n.schema.getKey "oneOf" with
  | some (.arr subs) =>
    match composite_children rec n subs with
    | .ok cs => .ok (composition_call "jst.JSONOneOf" cs kwargs)
    | .error e => .error e
  | _ => .error (.keyError "oneOf")

def AllOfTraitCode.trait_code (rec : SchemaNode → Except Err String)
    (n : SchemaNode) (kwargs : Kwargs) : Except Err String :=
  match n.schema.getKey "allOf" with
  | some (.arr subs) =>
    match composite_children rec n subs with
    | .ok cs => .ok (composition_call "jst.JSONAllOf" cs kwargs)
    | .error e => .error e
  | _ => .error (.keyError "allOf")

def NotTraitCode.trait_code (rec : SchemaNode → Except Err String)
    (n : SchemaNode) (kwargs : Kwargs) : Except Err String :=
  match n.schema.getKey "not" with
  | some sub =>
    match rec (make_child n sub) with
    | .ok c => .ok (construct_function_call "jst.JSONNot" [Arg.var c] kwargs)
    | .error e => .error e
  | none => .error (.keyError "not")

/-- `ObjectTraitCode.trait_code`: anonymous inline objects are explicitly
unimplemented. -/
def ObjectTraitCode.trait_code (_kwargs : Kwargs) : Except Err String :=
  .error (.notImplemented "Anonymous Objects")

/-- The extractor chain: try each extractor in the spec's priority order and
use the first whose check succeeds (§4.2; the ordered extractor list lives
in the `JSONSchema` class, not under src/, and is modelled from the spec).
Recursive descent into child or referenced nodes goes through the node's
`trait_code` property, i.e. re-enters the chain with empty property options;
the fuel bounds recursion through cyclic references. -/
def trait_code_with : Nat → SchemaNode → Kwargs → Except Err String
  | 0, _, _ => .error .outOfFuel
  | fuel+1, n, kwargs =>
    if RefTraitCode.check n then
      RefTraitCode.trait_code (fun m => trait_code_with fuel m []) n kwargs
    else if EnumTraitCode.check n then
      EnumTraitCode.trait_code n kwargs
    else if SimpleTraitCode.check n then
      SimpleTraitCode.extract n kwargs
    else if CompoundTraitCode.check n then
      CompoundTraitCode.extract n kwargs
    else if ArrayTraitCode.check n then
      ArrayTraitCode.trait_code (fun m => trait_code_with fuel m []) n kwargs
    else if AnyOfTraitCode.check n then
      AnyOfTraitCode.trait_code (fun m => trait_code_with fuel m []) n kwargs
    else if OneOfTraitCode.check n then
      OneOfTraitCode.trait_code (fun m => trait_code_with fuel m []) n kwargs
    else if AllOfTraitCode.check n then
      AllOfTraitCode.trait_code (fun m => trait_code_with fuel m []) n kwargs
    else if NotTraitCode.check n then
      NotTraitCode.trait_code (fun m => trait_code_with fuel m []) n kwargs
    else if ObjectTraitCode.check n then
      ObjectTraitCode.trait_code kwargs
    else
      .error .noMatchingExtractor

/-- A node's `trait_code` property: run the chain with empty property
options. -/
def node_trait_code (fuel : Nat) (n : SchemaNode) : Except Err String :=
  trait_code_with fuel n []

/-- A generated class: declared property names in declaration order, plus
the required-property names.
Modelled from the spec (§3, §4.4): the schemapi runtime (`SchemaBase`,
`from_dict` / `to_dict`) is not under src/, only its tests are. -/
structure GenClass where
  props : List String
  required : List String

/-- An instance of a generated class: the property values that are set, in
the class's declaration order. -/
structure SchemaInstance where
  fields : List (String × JValue)

/-- A property-value mapping satisfying the class's constraints: unique
keys, every key declared on the class, every required property present.
Modelled from the spec (§4.4, §8). -/
def ValidMapping (C : GenClass) (m : List (String × JValue)) : Prop :=
  (m.map Prod.fst).Nodup ∧
  (∀ kv ∈ m, kv.1 ∈ C.props) ∧
  (∀ r ∈ C.required, r ∈ m.map Prod.fst)

/-- `C.from_dict(m)`: construct an instance holding the mapping's values,
stored per declared property in declaration order.
Modelled from the spec (§4.4): "constructing an instance from a mapping of
property values". -/
def from_dict (C : GenClass) (m : List (String × JValue)) : SchemaInstance :=
  ⟨C.props.filterMap (fun p => (alookup m p).map (fun v => (p, v)))⟩

/-- `inst.to_dict()`: extract the mapping of set property values.
Modelled from the spec (§4.4): "extracting an equivalent mapping back
out". -/
def to_dict (i : SchemaInstance) : List (String × JValue) :=
  i.fields

/-- The node store for the stateful embedding: the Python heap of schema
node objects allocated during extraction.  `RefTraitCode.trait_code` is the
one extractor that creates and then mutates such an object (`ref =
ref.copy(); ref.metadata = ...`); all other extractors only read. -/
abbrev NodeStore := List SchemaNode

instance : Inhabited SchemaNode :=
  ⟨⟨.null, .null, ⟨none, none⟩⟩⟩

/-- In-place update of the metadata attribute of the node object at index
`i`, the embedding of Python `node.metadata = m`. -/
def store_set_meta : NodeStore → Nat → Metadata → NodeStore
  | [], _, _ => []
  | x :: rest, 0, m => ⟨x.schema, x.root, m⟩ :: rest
  | x :: rest, i+1, m => x :: store_set_meta rest i m

/-- Indexed read into the node store. -/
def store_get? : NodeStore → Nat → Option SchemaNode
  | [], _ => none
  | x :: _, 0 => some x
  | _ :: rest, i+1 => store_get? rest i

def store_read (st : NodeStore) (i : Nat) : SchemaNode :=
  (store_get? st i).getD default

/-- Trait codes of composition children, threading the node store. -/
def composite_children_st (tc : SchemaNode → NodeStore → Except Err String × NodeStore) :
    List JValue → SchemaNode → NodeStore → Except Err (List String) × NodeStore
  | [], _, st => (.ok [], st)
  | s :: rest, n, st =>
    match tc (make_child n s) st with
    | (.error e, st1) => (.error e, st1)
    | (.ok c, st1) =>
      match composite_children_st tc rest n st1 with
      | (.ok cs, st2) => (.ok (c :: cs), st2)
      | (.error e, st2) => (.error e, st2)

/-- The extractor chain with the Python object heap made explicit: every
step returns the result together with the store of allocated node objects.
The only step that touches the store is the transparent-alias branch of the
reference extractor, which allocates a copy of the resolved node (`ref =
ref.copy()`), assigns the referencing node's metadata to that copy in place
(`ref.metadata = self.schema.metadata`), and recurses on the object read
back from the store.  Everything else threads the store unchanged through
its recursive calls. -/
def trait_code_st : Nat → SchemaNode → Kwargs → NodeStore → Except Err String × NodeStore
  | 0, _, _, st => (.error .outOfFuel, st)
  | fuel+1, n, kwargs, st =>
    if RefTraitCode.check n then
      match n.schema.getKey "$ref" with
      | some (JValue.str r) =>
        match get_reference n.root r with
        | .error e => (.error e, st)
        | .ok (tgt, classname) =>
          if is_object tgt then
            (.ok (construct_function_call "jst.JSONInstance" [Arg.var classname] kwargs), st)
          else
            let st1 := st ++ [⟨tgt, n.root, metadataOf tgt⟩]
            let st2 := store_set_meta st1 st.length n.metadata
            trait_code_st fuel (store_read st2 st.length) [] st2
      | some _ => (.error (.unsupportedRef "$ref"), st)
      | none => (.error (.keyError "$ref"), st)
    else if EnumTraitCode.check n then
      (EnumTraitCode.trait_code n kwargs, st)
    else if SimpleTraitCode.check n then
      (SimpleTraitCode.extract n kwargs, st)
    else if CompoundTraitCode.check n then
      (CompoundTraitCode.extract n kwargs, st)
    else if ArrayTraitCode.check n then
      match n.schema.getKey "items" with
      | none => (.error (.keyError "items"), st)
      | some items =>
        let kwargs := array_kwargs n.schema kwargs
        if items.isArr then
          (.error (.notImplemented "\x27items\x27 keyword as list"), st)
        else
          match trait_code_st fuel (make_child n items) [] st with
          | (.ok itemtype, st1) =>
            (.ok (construct_function_call "jst.JSONArray" [Arg.var itemtype] kwargs), st1)
          | (.error e, st1) => (.error e, st1)
    else if AnyOfTraitCode.check n then
      match n.schema.getKey "anyOf" with
      | some (.arr subs) =>
        match composite_children_st (fun m s => trait_code_st fuel m [] s) subs n st with
        | (.ok cs, st1) => (.ok (composition_call "jst.JSONAnyOf" cs kwargs), st1)
        | (.error e, st1) => (.error e, st1)
      | _ => (.error (.keyError "anyOf"), st)
    else if OneOfTraitCode.check n then
      match n.schema.getKey "oneOf" with
      | some (.arr subs) =>
        match composite_children_st (fun m s => trait_code_st fuel m [] s) subs n st with
        | (.ok cs, st1) => (.ok (composition_call "jst.JSONOneOf" cs kwargs), st1)
        | (.error e, st1) => (.error e, st1)
      | _ => (.error (.keyError "oneOf"), st)
    else if AllOfTraitCode.check n then
      match n.schema.getKey "allOf" with
      | some (.arr subs) =>
        match composite_children_st (fun m s => trait_code_st fuel m [] s) subs n st with
        | (.ok cs, st1) => (.ok (composition_call "jst.JSONAllOf" cs kwargs), st1)
        | (.error e, st1) => (.error e, st1)
      | _ => (.error (.keyError "allOf"), st)
    else if NotTraitCode.check n then
      match n.schema.getKey "not" with
      | some sub =>
        match trait_code_st fuel (make_child n sub) [] st with
        | (.ok c, st1) => (.ok (construct_function_call "jst.JSONNot" [Arg.var c] kwargs), st1)
        | (.error e, st1) => (.error e, st1)
      | none => (.error (.keyError "not"), st)
    else if ObjectTraitCode.check n then
      (ObjectTraitCode.trait_code kwargs, st)
    else
      (.error .noMatchingExtractor, st)


/-! Concrete example documents and nodes used in the closed evaluation
theorems below. -/

/-- A document with one named object definition `Person` and a root property
referencing it, after the shape of the schemapi test fixture. -/
def exPersonDoc : JValue :=
  .obj [("definitions", .obj
          [("Person", .obj [("properties", .obj
              [("name", .obj [("type", .str "string")]),
               ("age", .obj [("type", .str "integer")])])]),
           ("Nick", .obj [("type", .str "string")])]),
        ("properties", .obj
          [("people", .obj [("type", .str "array"),
                            ("items", .obj [("$ref", .str "#/definitions/Person")])])])]

/-- A property node holding a reference to the object-class definition. -/
def exRefNode : SchemaNode :=
  ⟨.obj [("$ref", .str "#/definitions/Person")], exPersonDoc, ⟨none, none⟩⟩

/-- A property node holding a reference to a non-object (string) definition. -/
def exRefStrNode : SchemaNode :=
  ⟨.obj [("$ref", .str "#/definitions/Nick")], exPersonDoc, ⟨some "nickname", none⟩⟩

def exIntConNode : SchemaNode :=
  ⟨.obj [("type", .str "integer"), ("minimum", .num 0), ("maximum", .num 10)],
   .null, ⟨none, none⟩⟩

def exStrConNode : SchemaNode :=
  ⟨.obj [("type", .str "string"), ("minLength", .num 2), ("maxLength", .num 8),
         ("pattern", .str "ab+")],
   .null, ⟨none, none⟩⟩

def exStrPlainNode : SchemaNode :=
  ⟨.obj [("type", .str "string")], .null, ⟨none, none⟩⟩

def exNullStrNode : SchemaNode :=
  ⟨.obj [("type", .arr [.str "string", .str "null"])], .null, ⟨none, none⟩⟩

def exNullStrIntNode : SchemaNode :=
  ⟨.obj [("type", .arr [.str "string", .str "integer", .str "null"])], .null, ⟨none, none⟩⟩

def exNullOnlyNode : SchemaNode :=
  ⟨.obj [("type", .arr [.str "null"])], .null, ⟨none, none⟩⟩

def exEmptyTypeNode : SchemaNode :=
  ⟨.obj [("type", .arr [])], .null, ⟨none, none⟩⟩

def exArrNoItemsNode : SchemaNode :=
  ⟨.obj [("type", .str "array")], .null, ⟨none, none⟩⟩

def exArrTupleNode : SchemaNode :=
  ⟨.obj [("type", .str "array"),
         ("items", .arr [.obj [("type", .str "string")]])],
   .null, ⟨none, none⟩⟩

def exArrGoodNode : SchemaNode :=
  ⟨.obj [("type", .str "array"),
         ("items", .obj [("type", .str "string")]),
         ("minItems", .num 1), ("uniqueItems", .bool true)],
   .null, ⟨none, none⟩⟩

def exObjNode : SchemaNode :=
  ⟨.obj [("type", .str "object")], .null, ⟨none, none⟩⟩

/-- The generated `Person` class of the test fixture. -/
def exPersonClass : GenClass :=
  ⟨["name", "age"], ["name"]⟩

def exPersonMapping : List (String × JValue) :=
  [("name", .str "Alice"), ("age", .num 25)]

theorem kwUpdate_nil (kw : Kwargs) : kwUpdate kw [] = kw := by
  induction kw with
  | nil => rfl
  | cons kv rest ih =>
    simp only [kwUpdate, alookup, List.map, List.filter, List.append_nil] at *
    simp [ih]

theorem alookup_mem {α : Type} : ∀ {l : List (String × α)} {k : String} {v : α},
    alookup l k = some v → (k, v) ∈ l := by
  intro l
  induction l with
  | nil => intro k v h; simp [alookup] at h
  | cons kv rest ih =>
    obtain ⟨k1, v1⟩ := kv
    intro k v h
    simp only [alookup] at h
    by_cases hk : k1 = k
    · rw [if_pos hk] at h
      injection h with hv
      subst hk
      subst hv
      exact List.mem_cons_self _ _
    · rw [if_neg hk] at h
      exact List.mem_cons_of_mem _ (ih h)

theorem alookup_isSome_iff {α : Type} (l : List (String × α)) (k : String) :
    (alookup l k).isSome ↔ k ∈ l.map Prod.fst := by
  induction l with
  | nil => simp [alookup]
  | cons kv rest ih =>
    obtain ⟨k1, v1⟩ := kv
    by_cases hk : k1 = k
    · simp [alookup, hk]
    · simp only [alookup, if_neg hk, List.map_cons, List.mem_cons]
      rw [ih]
      constructor
      · intro h; exact Or.inr h
      · intro h
        rcases h with h | h
        · exact absurd h.symm hk
        · exact h

theorem alookup_append {α : Type} (a b : List (String × α)) (k : String) :
    alookup (a ++ b) k =
      match alookup a k with
      | some v => some v
      | none => alookup b k := by
  induction a with
  | nil => simp [alookup]
  | cons kv rest ih =>
    obtain ⟨k1, v1⟩ := kv
    by_cases hk : k1 = k
    · simp [alookup, hk]
    · simp only [List.cons_append, alookup, if_neg hk]
      exact ih

theorem alookup_map_update (kw upd : Kwargs) (k : String) :
    alookup (kw.map (fun kv =>
      match alookup upd kv.1 with
      | some v => (kv.1, v)
      | none => kv)) k =
    match alookup kw k with
    | none => none
    | some v =>
      match alookup upd k with
      | some w => some w
      | none => some v := by
  induction kw with
  | nil => simp [alookup]
  | cons kv rest ih =>
    obtain ⟨k1, v1⟩ := kv
    by_cases hk : k1 = k
    · subst hk
      cases hu : alookup upd k1 <;> simp [alookup, hu]
    · cases hu : alookup upd k1 <;>
        simp only [List.map_cons, hu, alookup, if_neg hk] <;>
        exact ih

theorem alookup_filter_keep (kw upd : Kwargs) (k : String) :
    alookup (upd.filter (fun kv => !(kw.any (fun kv2 => kv2.1 == kv.1)))) k =
      if kw.any (fun kv2 => kv2.1 == k) then none else alookup upd k := by
  induction upd with
  | nil => simp [alookup]
  | cons kv rest ih =>
    obtain ⟨k1, v1⟩ := kv
    by_cases hk : k1 = k
    · subst hk
      cases hin : kw.any (fun kv2 => kv2.1 == k1) <;>
        simp [List.filter_cons, hin, alookup, ih]
    · cases hin : kw.any (fun kv2 => kv2.1 == k1) <;>
        simp only [List.filter_cons, hin, Bool.not_true, Bool.not_false, if_true, if_false,
          alookup, if_neg hk] <;> exact ih

theorem any_key_iff {α : Type} (l : List (String × α)) (k : String) :
    (l.any (fun kv => kv.1 == k)) = true ↔ k ∈ l.map Prod.fst := by
  simp only [List.any_eq_true, beq_iff_eq, List.mem_map]

theorem alookup_kwUpdate_of_mem {kw upd : Kwargs} {k : String} {v : Arg}
    (h : alookup upd k = some v) : alookup (kwUpdate kw upd) k = some v := by
  unfold kwUpdate
  rw [alookup_append, alookup_map_update]
  cases hkw : alookup kw k with
  | some w =>
    simp [h]
  | none =>
    have hnotin : k ∉ kw.map Prod.fst := by
      rw [← alookup_isSome_iff, hkw]
      simp
    have hany : (kw.any (fun kv2 => kv2.1 == k)) = false := by
      cases hc : kw.any (fun kv2 => kv2.1 == k)
      · rfl
      · exact absurd ((any_key_iff kw k).mp hc) hnotin
    simp only [alookup_filter_keep, hany, if_false]
    exact h

theorem from_dict_alookup (props : List String) (m : List (String × JValue)) (k : String) :
    alookup (props.filterMap (fun p => (alookup m p).map (fun v => (p, v)))) k =
      if k ∈ props then alookup m k else none := by
  induction props with
  | nil => simp [alookup]
  | cons p ps ih =>
    have hmem : ¬ p = k → ((k ∈ p :: ps) ↔ (k ∈ ps)) := by
      intro hk
      simp only [List.mem_cons]
      constructor
      · rintro (h | h)
        · exact absurd h.symm hk
        · exact h
      · exact Or.inr
    cases hm : alookup m p with
    | some v =>
      simp only [List.filterMap_cons, hm, Option.map_some']
      by_cases hk : p = k
      · subst hk
        simp [alookup, hm]
      · simp only [alookup, if_neg hk, ih]
        by_cases hks : k ∈ ps
        · rw [if_pos hks, if_pos ((hmem hk).mpr hks)]
        · rw [if_neg hks, if_neg (fun hc => hks ((hmem hk).mp hc))]
    | none =>
      simp only [List.filterMap_cons, hm, Option.map_none']
      rw [ih]
      by_cases hk : p = k
      · subst hk
        by_cases hks : p ∈ ps
        · rw [if_pos hks, if_pos (List.mem_cons_self p ps)]
        · rw [if_neg hks, if_pos (List.mem_cons_self p ps), hm]
      · by_cases hks : k ∈ ps
        · rw [if_pos hks, if_pos ((hmem hk).mpr hks)]
        · rw [if_neg hks, if_neg (fun hc => hks ((hmem hk).mp hc))]

theorem store_set_meta_length (st : NodeStore) (i : Nat) (m : Metadata) :
    (store_set_meta st i m).length = st.length := by
  induction st generalizing i with
  | nil => rfl
  | cons x rest ih =>
    cases i with
    | zero => rfl
    | succ j => simp [store_set_meta, ih]

theorem store_get?_append_lt (st l : NodeStore) (i : Nat) (h : i < st.length) :
    store_get? (st ++ l) i = store_get? st i := by
  induction st generalizing i with
  | nil => exact absurd h (Nat.not_lt_zero i)
  | cons x rest ih =>
    cases i with
    | zero => rfl
    | succ j =>
      simp only [List.cons_append, store_get?]
      exact ih j (Nat.lt_of_succ_lt_succ h)

theorem store_get?_set_meta_ne (st : NodeStore) (i j : Nat) (m : Metadata) (h : j ≠ i) :
    store_get? (store_set_meta st i m) j = store_get? st j := by
  induction st generalizing i j with
  | nil => rfl
  | cons x rest ih =>
    cases i with
    | zero =>
      cases j with
      | zero => exact absurd rfl h
      | succ j' => rfl
    | succ i' =>
      cases j with
      | zero => rfl
      | succ j' => exact ih i' j' (fun he => h (by rw [he]))

theorem store_get?_set_meta_append (st : NodeStore) (x : SchemaNode) (m : Metadata) :
    store_get? (store_set_meta (st ++ [x]) st.length m) st.length =
      some ⟨x.schema, x.root, m⟩ := by
  induction st with
  | nil => rfl
  | cons y rest ih =>
    simpa [store_set_meta, store_get?] using ih

theorem store_get?_isSome_iff (l : NodeStore) (i : Nat) :
    (store_get? l i).isSome ↔ i < l.length := by
  induction l generalizing i with
  | nil => simp [store_get?]
  | cons x rest ih =>
    cases i with
    | zero => simp [store_get?]
    | succ j => simp [store_get?, ih, Nat.succ_lt_succ_iff]

theorem store_length_le_of_frame (a b : NodeStore)
    (h : ∀ i, i < a.length → store_get? b i = store_get? a i) : a.length ≤ b.length := by
  by_contra hlt
  push_neg at hlt
  have h1 := h b.length hlt
  have h2 : (store_get? a b.length).isSome := (store_get?_isSome_iff a b.length).mpr hlt
  rw [← h1, store_get?_isSome_iff] at h2
  exact absurd h2 (lt_irrefl _)

theorem composite_children_st_spec
    (tc : SchemaNode → NodeStore → Except Err String × NodeStore)
    (tcP : SchemaNode → Except Err String)
    (h : ∀ m st, (tc m st).1 = tcP m ∧
      ∀ i, i < st.length → store_get? (tc m st).2 i = store_get? st i) :
    ∀ (l : List JValue) (n : SchemaNode) (st : NodeStore),
      (composite_children_st tc l n st).1 = composite_children tcP n l ∧
      ∀ i, i < st.length →
        store_get? (composite_children_st tc l n st).2 i = store_get? st i := by
  intro l
  induction l with
  | nil =>
    intro n st
    exact ⟨rfl, fun i _ => rfl⟩
  | cons s rest ih =>
    intro n st
    obtain ⟨h1, h2⟩ := h (make_child n s) st
    cases htc : tc (make_child n s) st with
    | mk r st1 =>
      rw [htc] at h1 h2
      simp only at h1 h2
      cases r with
      | error e =>
        constructor
        · simp only [composite_children_st, htc, composite_children, ← h1]
        · intro i hi
          simp only [composite_children_st, htc]
          exact h2 i hi
      | ok c =>
        obtain ⟨ih1, ih2⟩ := ih n st1
        cases hrest : composite_children_st tc rest n st1 with
        | mk rr st2 =>
          rw [hrest] at ih1 ih2
          simp only at ih1 ih2
          have hlen : st.length ≤ st1.length :=
            store_length_le_of_frame st st1 h2
          have hframe : ∀ i, i < st.length → store_get? st2 i = store_get? st i := by
            intro i hi
            rw [ih2 i (Nat.lt_of_lt_of_le hi hlen), h2 i hi]
          cases rr with
          | error e =>
            constructor
            · simp only [composite_children_st, htc, hrest, composite_children, ← h1, ← ih1]
            · intro i hi
              simp only [composite_children_st, htc, hrest]
              exact hframe i hi
          | ok cs =>
            constructor
            · simp only [composite_children_st, htc, hrest, composite_children, ← h1, ← ih1]
            · intro i hi
              simp only [composite_children_st, htc, hrest]
              exact hframe i hi

/-- C8: no extractor mutates the schema tree or any existing node object.
Running the chain in the stateful embedding (with the heap of allocated
schema-node objects explicit) returns exactly the pure trait code — so the
produced code is a pure function of the node, the same string on every
invocation — and every node object allocated before the call is unchanged
afterwards: the single heap write, the reference extractor's metadata
assignment, hits only the fresh copy it has just allocated. -/
theorem trait_code_st_pure_and_frame :
    ∀ (fuel : Nat) (n : SchemaNode) (kwargs : Kwargs) (st : NodeStore),
      (trait_code_st fuel n kwargs st).1 = trait_code_with fuel n kwargs ∧
      ∀ i, i < st.length →
        store_get? (trait_code_st fuel n kwargs st).2 i = store_get? st i := by
  intro fuel
  induction fuel with
  | zero => intro n kwargs st; exact ⟨rfl, fun i _ => rfl⟩
  | succ f ih =>
    intro n kwargs st
    simp only [trait_code_st, trait_code_with]
    by_cases href : RefTraitCode.check n
    · rw [if_pos href, if_pos href]
      simp only [RefTraitCode.trait_code]
      cases hkey : n.schema.getKey "$ref" with
      | none => exact ⟨rfl, fun i _ => rfl⟩
      | some rv =>
        cases rv with
        | null => exact ⟨rfl, fun i _ => rfl⟩
        | bool b => exact ⟨rfl, fun i _ => rfl⟩
        | num m => exact ⟨rfl, fun i _ => rfl⟩
        | arr l => exact ⟨rfl, fun i _ => rfl⟩
        | obj o => exact ⟨rfl, fun i _ => rfl⟩
        | str r =>
          dsimp only
          cases hres : get_reference n.root r with
          | error e => exact ⟨rfl, fun i _ => rfl⟩
          | ok pr =>
            obtain ⟨tgt, classname⟩ := pr
            dsimp only
            by_cases hobj : is_object tgt
            · rw [if_pos hobj, if_pos hobj]
              exact ⟨rfl, fun i _ => rfl⟩
            · rw [if_neg hobj, if_neg hobj]
              have hx := store_get?_set_meta_append st ⟨tgt, n.root, metadataOf tgt⟩ n.metadata
              have hread : store_read
                  (store_set_meta (st ++ [⟨tgt, n.root, metadataOf tgt⟩]) st.length n.metadata)
                  st.length = ⟨tgt, n.root, n.metadata⟩ := by
                simp only [store_read, hx, Option.getD_some]
              rw [hread]
              obtain ⟨g1, g2⟩ := ih ⟨tgt, n.root, n.metadata⟩ []
                (store_set_meta (st ++ [⟨tgt, n.root, metadataOf tgt⟩]) st.length n.metadata)
              refine ⟨g1, ?_⟩
              intro i hi
              have hlen2 : i < (store_set_meta (st ++ [⟨tgt, n.root, metadataOf tgt⟩])
                  st.length n.metadata).length := by
                rw [store_set_meta_length, List.length_append]
                simp only [List.length_singleton]
                omega
              rw [g2 i hlen2, store_get?_set_meta_ne _ _ _ _ (Nat.ne_of_lt hi),
                store_get?_append_lt _ _ _ hi]
    · rw [if_neg href, if_neg href]
      by_cases henum : EnumTraitCode.check n
      · rw [if_pos henum, if_pos henum]
        exact ⟨rfl, fun i _ => rfl⟩
      · rw [if_neg henum, if_neg henum]
        by_cases hsimp : SimpleTraitCode.check n
        · rw [if_pos hsimp, if_pos hsimp]
          exact ⟨rfl, fun i _ => rfl⟩
        · rw [if_neg hsimp, if_neg hsimp]
          by_cases hcomp : CompoundTraitCode.check n
          · rw [if_pos hcomp, if_pos hcomp]
            exact ⟨rfl, fun i _ => rfl⟩
          · rw [if_neg hcomp, if_neg hcomp]
            by_cases harr : ArrayTraitCode.check n
            · rw [if_pos harr, if_pos harr]
              simp only [ArrayTraitCode.trait_code]
              cases hitems : n.schema.getKey "items" with
              | none => exact ⟨rfl, fun i _ => rfl⟩
              | some items =>
                dsimp only
                by_cases hisarr : items.isArr
                · rw [if_pos hisarr, if_pos hisarr]
                  exact ⟨rfl, fun i _ => rfl⟩
                · rw [if_neg hisarr, if_neg hisarr]
                  obtain ⟨g1, g2⟩ := ih (make_child n items) [] st
                  cases hrec : trait_code_st f (make_child n items) [] st with
                  | mk r st1 =>
                    rw [hrec] at g1 g2
                    simp only at g1 g2
                    cases r with
                    | ok itemtype =>
                      constructor
                      · simp only [hrec, ← g1]
                      · intro i hi
                        simp only [hrec]
                        exact g2 i hi
                    | error e =>
                      constructor
                      · simp only [hrec, ← g1]
                      · intro i hi
                        simp only [hrec]
                        exact g2 i hi
            · rw [if_neg harr, if_neg harr]
              by_cases hany : AnyOfTraitCode.check n
              · rw [if_pos hany, if_pos hany]
                simp only [AnyOfTraitCode.trait_code]
                cases hkey : n.schema.getKey "anyOf" with
                | none => exact ⟨rfl, fun i _ => rfl⟩
                | some v =>
                  cases v with
                  | null => exact ⟨rfl, fun i _ => rfl⟩
                  | bool b => exact ⟨rfl, fun i _ => rfl⟩
                  | num m => exact ⟨rfl, fun i _ => rfl⟩
                  | str s => exact ⟨rfl, fun i _ => rfl⟩
                  | obj o => exact ⟨rfl, fun i _ => rfl⟩
                  | arr subs =>
                    dsimp only
                    obtain ⟨c1, c2⟩ := composite_children_st_spec
                      (fun m s => trait_code_st f m [] s)
                      (fun m => trait_code_with f m [])
                      (fun m st2 => ih m [] st2) subs n st
                    cases hcc : composite_children_st
                        (fun m s => trait_code_st f m [] s) subs n st with
                    | mk rr st1 =>
                      rw [hcc] at c1 c2
                      simp only at c1 c2
                      cases rr with
                      | ok cs =>
                        constructor
                        · simp only [hcc, ← c1]
                        · intro i hi
                          simp only [hcc]
                          exact c2 i hi
                      | error e =>
                        constructor
                        · simp only [hcc, ← c1]
                        · intro i hi
                          simp only [hcc]
                          exact c2 i hi
              · rw [if_neg hany, if_neg hany]
                by_cases hone : OneOfTraitCode.check n
                · rw [if_pos hone, if_pos hone]
                  simp only [OneOfTraitCode.trait_code]
                  cases hkey : n.schema.getKey "oneOf" with
                  | none => exact ⟨rfl, fun i _ => rfl⟩
                  | some v =>
                    cases v with
                    | null => exact ⟨rfl, fun i _ => rfl⟩
                    | bool b => exact ⟨rfl, fun i _ => rfl⟩
                    | num m => exact ⟨rfl, fun i _ => rfl⟩
                    | str s => exact ⟨rfl, fun i _ => rfl⟩
                    | obj o => exact ⟨rfl, fun i _ => rfl⟩
                    | arr subs =>
                      dsimp only
                      obtain ⟨c1, c2⟩ := composite_children_st_spec
                        (fun m s => trait_code_st f m [] s)
                        (fun m => trait_code_with f m [])
                        (fun m st2 => ih m [] st2) subs n st
                      cases hcc : composite_children_st
                          (fun m s => trait_code_st f m [] s) subs n st with
                      | mk rr st1 =>
                        rw [hcc] at c1 c2
                        simp only at c1 c2
                        cases rr with
                        | ok cs =>
                          constructor
                          · simp only [hcc, ← c1]
                          · intro i hi
                            simp only [hcc]
                            exact c2 i hi
                        | error e =>
                          constructor
                          · simp only [hcc, ← c1]
                          · intro i hi
                            simp only [hcc]
                            exact c2 i hi
                · rw [if_neg hone, if_neg hone]
                  by_cases hall : AllOfTraitCode.check n
                  · rw [if_pos hall, if_pos hall]
                    simp only [AllOfTraitCode.trait_code]
                    cases hkey : n.schema.getKey "allOf" with
                    | none => exact ⟨rfl, fun i _ => rfl⟩
                    | some v =>
                      cases v with
                      | null => exact ⟨rfl, fun i _ => rfl⟩
                      | bool b => exact ⟨rfl, fun i _ => rfl⟩
                      | num m => exact ⟨rfl, fun i _ => rfl⟩
                      | str s => exact ⟨rfl, fun i _ => rfl⟩
                      | obj o => exact ⟨rfl, fun i _ => rfl⟩
                      | arr subs =>
                        dsimp only
                        obtain ⟨c1, c2⟩ := composite_children_st_spec
                          (fun m s => trait_code_st f m [] s)
                          (fun m => trait_code_with f m [])
                          (fun m st2 => ih m [] st2) subs n st
                        cases hcc : composite_children_st
                            (fun m s => trait_code_st f m [] s) subs n st with
                        | mk rr st1 =>
                          rw [hcc] at c1 c2
                          simp only at c1 c2
                          cases rr with
                          | ok cs =>
                            constructor
                            · simp only [hcc, ← c1]
                            · intro i hi
                              simp only [hcc]
                              exact c2 i hi
                          | error e =>
                            constructor
                            · simp only [hcc, ← c1]
                            · intro i hi
                              simp only [hcc]
                              exact c2 i hi
                  · rw [if_neg hall, if_neg hall]
                    by_cases hnot : NotTraitCode.check n
                    · rw [if_pos hnot, if_pos hnot]
                      simp only [NotTraitCode.trait_code]
                      cases hkey : n.schema.getKey "not" with
                      | none => exact ⟨rfl, fun i _ => rfl⟩
                      | some sub =>
                        dsimp only
                        obtain ⟨g1, g2⟩ := ih (make_child n sub) [] st
                        cases hrec : trait_code_st f (make_child n sub) [] st with
                        | mk r st1 =>
                          rw [hrec] at g1 g2
                          simp only at g1 g2
                          cases r with
                          | ok c =>
                            constructor
                            · simp only [hrec, ← g1]
                            · intro i hi
                              simp only [hrec]
                              exact g2 i hi
                          | error e =>
                            constructor
                            · simp only [hrec, ← g1]
                            · intro i hi
                              simp only [hrec]
                              exact g2 i hi
                    · rw [if_neg hnot, if_neg hnot]
                      by_cases hobj : ObjectTraitCode.check n
                      · rw [if_pos hobj, if_pos hobj]
                        exact ⟨rfl, fun i _ => rfl⟩
                      · rw [if_neg hobj, if_neg hobj]
                        exact ⟨rfl, fun i _ => rfl⟩

theorem alookup_kwUpdate_of_none {kw upd : Kwargs} {k : String}
    (h : alookup upd k = none) : alookup (kwUpdate kw upd) k = alookup kw k := by
  unfold kwUpdate
  rw [alookup_append, alookup_map_update]
  cases hkw : alookup kw k with
  | some w => simp [h]
  | none =>
    simp only [alookup_filter_keep]
    cases hany : kw.any (fun kv2 => kv2.1 == k)
    · simp [h]
    · simp

theorem alookup_kwSet_self (kw : Kwargs) (k : String) (v : Arg) :
    alookup (kwSet kw k v) k = some v := by
  unfold kwSet
  exact alookup_kwUpdate_of_mem (by simp [alookup])

theorem alookup_kwSet_ne (kw : Kwargs) (k k2 : String) (v : Arg) (h : k2 ≠ k) :
    alookup (kwSet kw k2 v) k = alookup kw k := by
  unfold kwSet
  exact alookup_kwUpdate_of_none (by simp [alookup, h])

theorem alookup_filterMap_getKey (s : JValue) (keys : List String) (k : String) (v : JValue)
    (hk : k ∈ keys) (hv : s.getKey k = some v) :
    alookup (keys.filterMap
      (fun key => (s.getKey key).map (fun w => (key, Arg.json w)))) k =
      some (Arg.json v) := by
  induction keys with
  | nil => simp at hk
  | cons key rest ih =>
    by_cases hkk : key = k
    · subst hkk
      simp only [List.filterMap_cons, hv, Option.map_some']
      simp [alookup]
    · have hkr : k ∈ rest := by
        rcases List.mem_cons.mp hk with h1 | h1
        · exact absurd h1.symm hkk
        · exact h1
      cases hg : s.getKey key with
      | none =>
        simp only [List.filterMap_cons, hg, Option.map_none']
        exact ih hkr
      | some w =>
        simp only [List.filterMap_cons, hg, Option.map_some']
        simp only [alookup, if_neg hkk]
        exact ih hkr

theorem ref_check_true {n : SchemaNode} {rv : JValue}
    (h : n.schema.getKey "$ref" = some rv) : RefTraitCode.check n = true := by
  simp [RefTraitCode.check, JValue.hasKey, h]

theorem ref_check_false {n : SchemaNode}
    (h : n.schema.getKey "$ref" = none) : RefTraitCode.check n = false := by
  simp [RefTraitCode.check, JValue.hasKey, h]

theorem enum_check_false {n : SchemaNode}
    (h : n.schema.getKey "enum" = none) : EnumTraitCode.check n = false := by
  simp [EnumTraitCode.check, JValue.hasKey, h]

theorem simple_check_of_str {n : SchemaNode} {t : String}
    (h : nodeType n.schema = TypeCode.str t) :
    SimpleTraitCode.check n = simple_types.contains t := by
  simp [SimpleTraitCode.check, h]

theorem simple_check_false_of_list {n : SchemaNode} {l : List JValue}
    (h : nodeType n.schema = TypeCode.list l) : SimpleTraitCode.check n = false := by
  simp [SimpleTraitCode.check, h]

theorem compound_check_false_of_str {n : SchemaNode} {t : String}
    (h : nodeType n.schema = TypeCode.str t) : CompoundTraitCode.check n = false := by
  simp [CompoundTraitCode.check, h]

theorem compound_check_of_list {n : SchemaNode} {l : List JValue}
    (h : nodeType n.schema = TypeCode.list l) :
    CompoundTraitCode.check n = l.all (fun t =>
      match t with
      | JValue.str s => simple_types.contains s
      | _ => false) := by
  simp [CompoundTraitCode.check, h]

theorem array_check_of_str {n : SchemaNode} {t : String}
    (h : nodeType n.schema = TypeCode.str t) :
    ArrayTraitCode.check n = (t == "array") := by
  simp [ArrayTraitCode.check, h]

theorem array_check_false_of_list {n : SchemaNode} {l : List JValue}
    (h : nodeType n.schema = TypeCode.list l) : ArrayTraitCode.check n = false := by
  simp [ArrayTraitCode.check, h]

theorem object_check_of_str {n : SchemaNode} {t : String}
    (h : nodeType n.schema = TypeCode.str t) :
    ObjectTraitCode.check n = (t == "object") := by
  simp [ObjectTraitCode.check, h]

theorem anyof_check_false {n : SchemaNode}
    (h : n.schema.getKey "anyOf" = none) : AnyOfTraitCode.check n = false := by
  simp [AnyOfTraitCode.check, JValue.hasKey, h]

theorem oneof_check_false {n : SchemaNode}
    (h : n.schema.getKey "oneOf" = none) : OneOfTraitCode.check n = false := by
  simp [OneOfTraitCode.check, JValue.hasKey, h]

theorem allof_check_false {n : SchemaNode}
    (h : n.schema.getKey "allOf" = none) : AllOfTraitCode.check n = false := by
  simp [AllOfTraitCode.check, JValue.hasKey, h]

theorem not_check_false {n : SchemaNode}
    (h : n.schema.getKey "not" = none) : NotTraitCode.check n = false := by
  simp [NotTraitCode.check, JValue.hasKey, h]

/-- Claim C3: for a node whose type is exactly one of the five simple type
names, the simple-scalar extractor matches and emits a call to the
corresponding primitive constructor, with the kwargs updated by exactly the
validation keywords present on the schema (`minimum`, `exclusiveMinimum`,
`maximum`, `exclusiveMaximum`, `multipleOf` for "number" and "integer");
every such present keyword appears as a keyword argument of the generated
call carrying the schema's value. -/
theorem simple_scalar_spec (n : SchemaNode) (t : String) (kwargs : Kwargs) (cls : String)
    (htype : nodeType n.schema = TypeCode.str t)
    (hsimple : simple_types.contains t = true)
    (hcls : alookup simple_classes t = some cls) :
    SimpleTraitCode.check n = true ∧
    SimpleTraitCode.extract n kwargs =
      .ok (construct_function_call cls []
        (kwUpdate kwargs ((validation_keys t).filterMap
          (fun key => (n.schema.getKey key).map (fun v => (key, Arg.json v)))))) ∧
    (∀ key v, key ∈ validation_keys t → n.schema.getKey key = some v →
      alookup (kwUpdate kwargs ((validation_keys t).filterMap
        (fun key => (n.schema.getKey key).map (fun v => (key, Arg.json v))))) key =
          some (Arg.json v)) := by
  refine ⟨?_, ?_, ?_⟩
  · rw [simple_check_of_str htype, hsimple]
  · simp only [SimpleTraitCode.extract, htype, SimpleTraitCode.trait_code, hcls]
  · intro key v hkmem hkv
    exact alookup_kwUpdate_of_mem (alookup_filterMap_getKey n.schema _ key v hkmem hkv)

/-- Closed evaluation of `simple_scalar_spec` on a concrete integer node
with `minimum` and `maximum` present. -/
theorem simple_scalar_spec_w :
    SimpleTraitCode.check exIntConNode = true ∧
    SimpleTraitCode.extract exIntConNode [] =
      Except.ok "jst.JSONInteger(minimum=0, maximum=10)" ∧
    alookup (kwUpdate [] ((validation_keys "integer").filterMap
      (fun key => (exIntConNode.schema.getKey key).map (fun v => (key, Arg.json v)))))
      "minimum" = some (Arg.json (JValue.num 0)) := by
  have h := simple_scalar_spec exIntConNode "integer" [] "jst.JSONInteger" rfl rfl rfl
  refine ⟨h.1, ?_, h.2.2 "minimum" (JValue.num 0) (by decide) rfl⟩
  rw [h.2.1]
  rfl

/-- Claim C10: for simple types "string", "boolean" and "null" the
extractor forwards no constraint keywords: the generated call depends only
on the typecode and the incoming kwargs, so string keywords like
`minLength`, `maxLength` and `pattern` present on the schema are silently
ignored (two nodes of the same simple type yield identical calls no matter
what other keys they carry). -/
theorem simple_scalar_ignores_constraints (n m : SchemaNode) (t : String)
    (kwargs : Kwargs) (cls : String)
    (ht : t = "string" ∨ t = "boolean" ∨ t = "null")
    (htype : nodeType n.schema = TypeCode.str t)
    (htype2 : nodeType m.schema = TypeCode.str t)
    (hcls : alookup simple_classes t = some cls) :
    SimpleTraitCode.extract n kwargs = .ok (construct_function_call cls [] kwargs) ∧
    SimpleTraitCode.extract n kwargs = SimpleTraitCode.extract m kwargs := by
  have hvk : validation_keys t = [] := by
    rcases ht with rfl | rfl | rfl <;> rfl
  have haux : ∀ p : SchemaNode, nodeType p.schema = TypeCode.str t →
      SimpleTraitCode.extract p kwargs = .ok (construct_function_call cls [] kwargs) := by
    intro p hp
    simp only [SimpleTraitCode.extract, hp, SimpleTraitCode.trait_code, hcls, hvk,
      List.filterMap_nil, kwUpdate_nil]
  exact ⟨haux n htype, (haux n htype).trans (haux m htype2).symm⟩

/-- Closed evaluation of `simple_scalar_ignores_constraints`: a string node
carrying `minLength` / `maxLength` / `pattern` produces the same bare call
as a plain string node. -/
theorem simple_scalar_ignores_constraints_w :
    SimpleTraitCode.extract exStrConNode [] = Except.ok "jst.JSONString()" ∧
    SimpleTraitCode.extract exStrConNode [] = SimpleTraitCode.extract exStrPlainNode [] := by
  have h := simple_scalar_ignores_constraints exStrConNode exStrPlainNode "string" []
    "jst.JSONString" (Or.inl rfl) rfl rfl rfl
  refine ⟨?_, h.2⟩
  rw [h.1]
  rfl

/-- Claim C1: for a node whose type is a list of simple type names
containing "null", the compound extractor matches; its trait code sets the
`allow_none` flag and removes "null" from the working list; if exactly one
simple type remains it degrades to the simple-scalar trait code for that
type with `allow_none` still applied; otherwise it is a `jst.JSONUnion`
call with one scalar sub-expression per remaining type, where the
`allow_none` / `allow_undefined` flags are stripped from every branch's
kwargs and applied to the union call as a whole. -/
theorem compound_with_null_spec (n : SchemaNode) (l : List JValue) (kwargs : Kwargs)
    (htype : nodeType n.schema = TypeCode.list l)
    (hall : l.all (fun t =>
      match t with
      | JValue.str s => simple_types.contains s
      | _ => false) = true)
    (hnull : l.any isNullName = true) :
    CompoundTraitCode.check n = true ∧
    (∀ s, l.filter (fun t => !(isNullName t)) = [JValue.str s] →
      CompoundTraitCode.extract n kwargs =
        SimpleTraitCode.trait_code n.schema s (kwSet kwargs "allow_none" (Arg.bool true))) ∧
    (∀ bs, (l.filter (fun t => !(isNullName t))).length ≠ 1 →
      (l.filter (fun t => !(isNullName t))).mapM (fun t =>
        match t with
        | JValue.str s => SimpleTraitCode.trait_code n.schema s
            ((kwSet kwargs "allow_none" (Arg.bool true)).filter
              (fun kv => !(kv.1 == "allow_none" || kv.1 == "allow_undefined")))
        | _ => Except.error (Err.keyError (renderJValue t))) = Except.ok bs →
      CompoundTraitCode.extract n kwargs =
        .ok (construct_function_call "jst.JSONUnion"
          [Arg.var ("[" ++ String.intercalate ", " bs ++ "]")]
          (kwSet kwargs "allow_none" (Arg.bool true)))) := by
  refine ⟨?_, ?_, ?_⟩
  · rw [compound_check_of_list htype, hall]
  · intro s hfilter
    simp only [CompoundTraitCode.extract, htype, CompoundTraitCode.trait_code]
    rw [if_pos hnull, hfilter]
  · intro bs hlen hbs
    simp only [CompoundTraitCode.extract, htype, CompoundTraitCode.trait_code]
    rw [if_pos hnull]
    cases hfl : l.filter (fun t => !(isNullName t)) with
    | nil =>
      rw [hfl] at hbs
      simp only [List.mapM_nil] at hbs
      injection hbs with hbs
      subst hbs
      rfl
    | cons a rest =>
      cases rest with
      | nil => exact absurd (by rw [hfl]; rfl) hlen
      | cons b rest2 =>
        rw [hfl] at hbs
        rw [hbs]

/-- Closed evaluation of `compound_with_null_spec`: `["string", "null"]`
degrades to an allow-none string scalar, and `["string", "integer",
"null"]` yields a union of bare scalars with `allow_none` on the union
call only. -/
theorem compound_with_null_spec_w :
    CompoundTraitCode.check exNullStrNode = true ∧
    CompoundTraitCode.extract exNullStrNode [] =
      Except.ok "jst.JSONString(allow_none=True)" ∧
    CompoundTraitCode.extract exNullStrIntNode [] =
      Except.ok "jst.JSONUnion([jst.JSONString(), jst.JSONInteger()], allow_none=True)" := by
  have hA := compound_with_null_spec exNullStrNode
    [JValue.str "string", JValue.str "null"] [] rfl rfl rfl
  have hB := compound_with_null_spec exNullStrIntNode
    [JValue.str "string", JValue.str "integer", JValue.str "null"] [] rfl rfl rfl
  refine ⟨hA.1, ?_, ?_⟩
  · rw [hA.2.1 "string" rfl]
    rfl
  · rw [hB.2.2 ["jst.JSONString()", "jst.JSONInteger()"] (by decide) rfl]
    rfl

theorem bool_not_true {b : Bool} (h : b = false) : ¬(b = true) := by
  intro hh
  rw [h] at hh
  exact Bool.false_ne_true hh

/-- Claim C9: a node whose type list is `["null"]` (or the empty list)
passes the compound check, and its trait code through the chain succeeds,
emitting a union call over an empty branch list — with `allow_none` set in
the `["null"]` case — instead of raising or degrading to a scalar. -/
theorem compound_degenerate_spec (fuel : Nat) (n : SchemaNode) (kwargs : Kwargs)
    (l : List JValue)
    (htype : nodeType n.schema = TypeCode.list l)
    (hcase : l = [JValue.str "null"] ∨ l = [])
    (hnr : n.schema.getKey "$ref" = none)
    (hne : n.schema.getKey "enum" = none) :
    CompoundTraitCode.check n = true ∧
    trait_code_with (fuel+1) n kwargs =
      .ok (construct_function_call "jst.JSONUnion" [Arg.var "[]"]
        (if l.isEmpty then kwargs else kwSet kwargs "allow_none" (Arg.bool true))) := by
  have hall : l.all (fun t =>
      match t with
      | JValue.str s => simple_types.contains s
      | _ => false) = true := by
    rcases hcase with rfl | rfl <;> rfl
  have hcheck : CompoundTraitCode.check n = true := by
    rw [compound_check_of_list htype, hall]
  refine ⟨hcheck, ?_⟩
  simp only [trait_code_with]
  rw [if_neg (bool_not_true (ref_check_false hnr)),
      if_neg (bool_not_true (enum_check_false hne)),
      if_neg (bool_not_true (simple_check_false_of_list htype)),
      if_pos hcheck]
  simp only [CompoundTraitCode.extract, htype]
  rcases hcase with rfl | rfl
  · rfl
  · rfl

/-- Closed evaluation of `compound_degenerate_spec` on `["null"]` and `[]`
type lists. -/
theorem compound_degenerate_spec_w :
    CompoundTraitCode.check exNullOnlyNode = true ∧
    trait_code_with 1 exNullOnlyNode [] = Except.ok "jst.JSONUnion([], allow_none=True)" ∧
    trait_code_with 1 exEmptyTypeNode [] = Except.ok "jst.JSONUnion([])" := by
  have hA := compound_degenerate_spec 0 exNullOnlyNode [] [JValue.str "null"]
    rfl (Or.inl rfl) rfl rfl
  have hB := compound_degenerate_spec 0 exEmptyTypeNode [] [] rfl (Or.inr rfl) rfl rfl
  refine ⟨hA.1, ?_, ?_⟩
  · rw [hA.2]
    rfl
  · rw [hB.2]
    rfl

/-- Claim C2: a node with a `$ref` key dispatches to the reference
extractor (first in the chain); with the reference resolving to target
`tgt` under class name `classname`, the trait code is a `jst.JSONInstance`
call parametrized by the class name when the target is an object-class
node, and otherwise the resolved node's own trait code, computed on a node
that carries the referencing node's metadata (not the referenced node's). -/
theorem ref_spec (fuel : Nat) (n : SchemaNode) (kwargs : Kwargs) (r : String)
    (tgt : JValue) (classname : String)
    (href : n.schema.getKey "$ref" = some (JValue.str r))
    (hres : get_reference n.root r = .ok (tgt, classname)) :
    trait_code_with (fuel+1) n kwargs =
      if is_object tgt then
        .ok (construct_function_call "jst.JSONInstance" [Arg.var classname] kwargs)
      else
        trait_code_with fuel ⟨tgt, n.root, n.metadata⟩ [] := by
  simp only [trait_code_with]
  rw [if_pos (ref_check_true href)]
  simp only [RefTraitCode.trait_code, href, hres]

/-- Closed evaluation of `ref_spec`: a reference to the object-class
definition `Person` yields an instance declaration, and a reference to the
string-typed definition `Nick` splices in the target's own (scalar) trait
code. -/
theorem ref_spec_w :
    trait_code_with 2 exRefNode [] = Except.ok "jst.JSONInstance(Person)" ∧
    trait_code_with 2 exRefStrNode [] = Except.ok "jst.JSONString()" := by
  have hA := ref_spec 1 exRefNode [] "#/definitions/Person"
    (.obj [("properties", .obj
      [("name", .obj [("type", .str "string")]),
       ("age", .obj [("type", .str "integer")])])])
    "Person" rfl rfl
  have hB := ref_spec 1 exRefStrNode [] "#/definitions/Nick"
    (.obj [("type", .str "string")]) "Nick" rfl rfl
  constructor
  · rw [hA]
    rfl
  · rw [hB]
    rfl

/-- Claim C4: an array-typed node's trait code requires an `items` key — a
missing key fails with a key error — and list-form `items` (tuple typing)
fails explicitly with the unimplemented-construct error; in both cases no
declaration is emitted. -/
theorem array_requires_items (fuel : Nat) (n : SchemaNode) (kwargs : Kwargs)
    (hnr : n.schema.getKey "$ref" = none)
    (hne : n.schema.getKey "enum" = none)
    (htype : nodeType n.schema = TypeCode.str "array") :
    (n.schema.getKey "items" = none →
      trait_code_with (fuel+1) n kwargs = .error (.keyError "items")) ∧
    (∀ l, n.schema.getKey "items" = some (JValue.arr l) →
      trait_code_with (fuel+1) n kwargs =
        .error (.notImplemented "\x27items\x27 keyword as list")) := by
  have hchain : trait_code_with (fuel+1) n kwargs =
      ArrayTraitCode.trait_code (fun m => trait_code_with fuel m []) n kwargs := by
    simp only [trait_code_with]
    rw [if_neg (bool_not_true (ref_check_false hnr)),
        if_neg (bool_not_true (enum_check_false hne)),
        if_neg (bool_not_true (by rw [simple_check_of_str htype]; rfl)),
        if_neg (bool_not_true (compound_check_false_of_str htype)),
        if_pos (by rw [array_check_of_str htype]; rfl)]
  constructor
  · intro hitems
    rw [hchain]
    simp only [ArrayTraitCode.trait_code, hitems]
  · intro l hitems
    rw [hchain]
    simp only [ArrayTraitCode.trait_code, hitems]
    rfl

/-- Closed evaluation of `array_requires_items` on an array node with no
`items` key and on one with list-form `items`. -/
theorem array_requires_items_w :
    trait_code_with 1 exArrNoItemsNode [] = Except.error (Err.keyError "items") ∧
    trait_code_with 1 exArrTupleNode [] =
      Except.error (Err.notImplemented "\x27items\x27 keyword as list") := by
  have hA := array_requires_items 0 exArrNoItemsNode [] rfl rfl rfl
  have hB := array_requires_items 0 exArrTupleNode [] rfl rfl rfl
  exact ⟨hA.1 rfl, hB.2 [JValue.obj [("type", JValue.str "string")]] rfl⟩

theorem array_kwargs_minlen (s : JValue) (kwargs : Kwargs) (v : JValue)
    (hv : s.getKey "minItems" = some v) :
    alookup (array_kwargs s kwargs) "minlen" = some (Arg.json v) := by
  unfold array_kwargs
  cases h2 : s.getKey "maxItems" <;> cases h3 : s.getKey "uniqueItems" <;>
    simp only [hv] <;>
    first
      | (rw [alookup_kwSet_ne _ _ _ _ (by decide),
            alookup_kwSet_ne _ _ _ _ (by decide)];
         exact alookup_kwSet_self _ _ _)
      | (rw [alookup_kwSet_ne _ _ _ _ (by decide)]; exact alookup_kwSet_self _ _ _)
      | exact alookup_kwSet_self _ _ _

theorem array_kwargs_maxlen (s : JValue) (kwargs : Kwargs) (v : JValue)
    (hv : s.getKey "maxItems" = some v) :
    alookup (array_kwargs s kwargs) "maxlen" = some (Arg.json v) := by
  unfold array_kwargs
  cases h1 : s.getKey "minItems" <;> cases h3 : s.getKey "uniqueItems" <;>
    simp only [hv] <;>
    first
      | (rw [alookup_kwSet_ne _ _ _ _ (by decide),
            alookup_kwSet_ne _ _ _ _ (by decide)];
         exact alookup_kwSet_self _ _ _)
      | (rw [alookup_kwSet_ne _ _ _ _ (by decide)]; exact alookup_kwSet_self _ _ _)
      | exact alookup_kwSet_self _ _ _

theorem array_kwargs_unique (s : JValue) (kwargs : Kwargs) (v : JValue)
    (hv : s.getKey "uniqueItems" = some v) :
    alookup (array_kwargs s kwargs) "uniqueItems" = some (Arg.json v) := by
  unfold array_kwargs
  cases h1 : s.getKey "minItems" <;> cases h2 : s.getKey "maxItems" <;>
    simp only [hv] <;>
    exact alookup_kwSet_self _ _ _

theorem array_kwargs_minlen_absent (s : JValue) (kwargs : Kwargs)
    (hv : s.getKey "minItems" = none) :
    alookup (array_kwargs s kwargs) "minlen" = alookup kwargs "minlen" := by
  unfold array_kwargs
  cases h2 : s.getKey "maxItems" <;> cases h3 : s.getKey "uniqueItems" <;>
    simp only [hv] <;>
    first
      | (rw [alookup_kwSet_ne _ _ _ _ (by decide),
            alookup_kwSet_ne _ _ _ _ (by decide)])
      | (rw [alookup_kwSet_ne _ _ _ _ (by decide)])
      | rfl

/-- Claim C6: an array-typed node with a single (non-list) `items` schema
derives the element trait code by running the chain on the child node made
at `items`, and wraps it in a `jst.JSONArray` call whose kwargs forward
`minItems` as `minlen`, `maxItems` as `maxlen`, and `uniqueItems` as the
`uniqueItems` flag, each exactly when present on the schema. -/
theorem array_single_items_spec (fuel : Nat) (n : SchemaNode) (kwargs : Kwargs)
    (items : JValue)
    (hnr : n.schema.getKey "$ref" = none)
    (hne : n.schema.getKey "enum" = none)
    (htype : nodeType n.schema = TypeCode.str "array")
    (hitems : n.schema.getKey "items" = some items)
    (hnotarr : items.isArr = false) :
    trait_code_with (fuel+1) n kwargs =
      (match trait_code_with fuel (make_child n items) [] with
       | .ok itemtype => .ok (construct_function_call "jst.JSONArray" [Arg.var itemtype]
           (array_kwargs n.schema kwargs))
       | .error e => .error e) ∧
    (∀ v, n.schema.getKey "minItems" = some v →
      alookup (array_kwargs n.schema kwargs) "minlen" = some (Arg.json v)) ∧
    (∀ v, n.schema.getKey "maxItems" = some v →
      alookup (array_kwargs n.schema kwargs) "maxlen" = some (Arg.json v)) ∧
    (∀ v, n.schema.getKey "uniqueItems" = some v →
      alookup (array_kwargs n.schema kwargs) "uniqueItems" = some (Arg.json v)) ∧
    (n.schema.getKey "minItems" = none →
      alookup (array_kwargs n.schema kwargs) "minlen" = alookup kwargs "minlen") := by
  refine ⟨?_, fun v hv => array_kwargs_minlen n.schema kwargs v hv,
    fun v hv => array_kwargs_maxlen n.schema kwargs v hv,
    fun v hv => array_kwargs_unique n.schema kwargs v hv,
    fun hv => array_kwargs_minlen_absent n.schema kwargs hv⟩
  simp only [trait_code_with]
  rw [if_neg (bool_not_true (ref_check_false hnr)),
      if_neg (bool_not_true (enum_check_false hne)),
      if_neg (bool_not_true (by rw [simple_check_of_str htype]; rfl)),
      if_neg (bool_not_true (compound_check_false_of_str htype)),
      if_pos (by rw [array_check_of_str htype]; rfl)]
  simp only [ArrayTraitCode.trait_code, hitems]
  rw [if_neg (bool_not_true hnotarr)]

/-- Closed evaluation of `array_single_items_spec` on an array-of-strings
node carrying `minItems` and `uniqueItems`. -/
theorem array_single_items_spec_w :
    trait_code_with 2 exArrGoodNode [] =
      Except.ok "jst.JSONArray(jst.JSONString(), minlen=1, uniqueItems=True)" ∧
    alookup (array_kwargs exArrGoodNode.schema []) "minlen" =
      some (Arg.json (JValue.num 1)) ∧
    alookup (array_kwargs exArrGoodNode.schema []) "maxlen" = alookup ([] : Kwargs) "maxlen" := by
  have h := array_single_items_spec 1 exArrGoodNode []
    (.obj [("type", .str "string")]) rfl rfl rfl rfl rfl
  refine ⟨?_, h.2.1 (JValue.num 1) rfl, rfl⟩
  rw [h.1]
  rfl

/-- Claim C5: an object-typed node that reaches the end of the chain (no
`$ref`, `enum`, or composition keyword, hence not promoted to a named
class) fails with the `NotImplementedError`-class error naming anonymous
objects; the object extractor itself always fails and never emits a
declaration. -/
theorem object_unimplemented (fuel : Nat) (n : SchemaNode) (kwargs : Kwargs)
    (hnr : n.schema.getKey "$ref" = none)
    (hne : n.schema.getKey "enum" = none)
    (hany : n.schema.getKey "anyOf" = none)
    (hone : n.schema.getKey "oneOf" = none)
    (hallof : n.schema.getKey "allOf" = none)
    (hnot : n.schema.getKey "not" = none)
    (htype : nodeType n.schema = TypeCode.str "object") :
    trait_code_with (fuel+1) n kwargs =
      .error (.notImplemented "Anonymous Objects") ∧
    ObjectTraitCode.trait_code kwargs = .error (.notImplemented "Anonymous Objects") := by
  constructor
  · simp only [trait_code_with]
    rw [if_neg (bool_not_true (ref_check_false hnr)),
        if_neg (bool_not_true (enum_check_false hne)),
        if_neg (bool_not_true (by rw [simple_check_of_str htype]; rfl)),
        if_neg (bool_not_true (compound_check_false_of_str htype)),
        if_neg (bool_not_true (by rw [array_check_of_str htype]; rfl)),
        if_neg (bool_not_true (anyof_check_false hany)),
        if_neg (bool_not_true (oneof_check_false hone)),
        if_neg (bool_not_true (allof_check_false hallof)),
        if_neg (bool_not_true (not_check_false hnot)),
        if_pos (by rw [object_check_of_str htype]; rfl)]
    rfl
  · rfl

/-- Closed evaluation of `object_unimplemented` on a bare object-typed
node. -/
theorem object_unimplemented_w :
    trait_code_with 1 exObjNode [] = .error (.notImplemented "Anonymous Objects") ∧
    ObjectTraitCode.trait_code [] = .error (.notImplemented "Anonymous Objects") :=
  object_unimplemented 0 exObjNode [] rfl rfl rfl rfl rfl rfl rfl

/-- Claim C7: round-trip law for the generated classes' serialization pair
(the schemapi runtime is modelled from the spec): for any class `C` and any
property-value mapping `m` satisfying `C`'s constraints, converting `m`
into an instance and serializing it back yields a mapping equal to `m` as
a mapping — every key looks up to the same value, and the key sets are
identical. -/
theorem round_trip_law (C : GenClass) (m : List (String × JValue)) (k : String)
    (hv : ValidMapping C m) :
    alookup (to_dict (from_dict C m)) k = alookup m k ∧
    (k ∈ (to_dict (from_dict C m)).map Prod.fst ↔ k ∈ m.map Prod.fst) := by
  obtain ⟨hnd, hdecl, hreq⟩ := hv
  have h1 : alookup (to_dict (from_dict C m)) k =
      if k ∈ C.props then alookup m k else none := by
    simp only [to_dict, from_dict]
    exact from_dict_alookup C.props m k
  have h2 : alookup (to_dict (from_dict C m)) k = alookup m k := by
    by_cases hk : k ∈ C.props
    · rw [h1, if_pos hk]
    · rw [h1, if_neg hk]
      cases hm : alookup m k with
      | none => rfl
      | some v => exact absurd (hdecl (k, v) (alookup_mem hm)) hk
  refine ⟨h2, ?_⟩
  rw [← alookup_isSome_iff, ← alookup_isSome_iff, h2]

/-- Closed evaluation of `round_trip_law` on the `Person` fixture class and
a valid mapping. -/
theorem round_trip_law_w :
    ValidMapping exPersonClass exPersonMapping ∧
    alookup (to_dict (from_dict exPersonClass exPersonMapping)) "age" =
      alookup exPersonMapping "age" ∧
    ("age" ∈ (to_dict (from_dict exPersonClass exPersonMapping)).map Prod.fst ↔
      "age" ∈ exPersonMapping.map Prod.fst) := by
  have hv : ValidMapping exPersonClass exPersonMapping := by
    refine ⟨by decide, by decide, by decide⟩
  have h := round_trip_law exPersonClass exPersonMapping "age" hv
  exact ⟨hv, h.1, h.2⟩

/-- Closed evaluation of `trait_code_st_pure_and_frame`: running the
stateful chain on a reference node that takes the copy-and-splice path
returns the pure result and leaves the pre-existing store entry intact. -/
theorem trait_code_st_pure_and_frame_w :
    (trait_code_st 2 exRefStrNode [] [exObjNode]).1 = trait_code_with 2 exRefStrNode [] ∧
    store_get? (trait_code_st 2 exRefStrNode [] [exObjNode]).2 0 =
      store_get? [exObjNode] 0 := by
  have h := trait_code_st_pure_and_frame 2 exRefStrNode [] [exObjNode]
  exact ⟨h.1, h.2 0 (by decide)⟩
